import Mathlib

/-!
Shallow embedding of `src/lwe/backends/api/orm.py`: the SQLAlchemy schema
(`User`, `Conversation`, `Message` tables) and the `Manager` CRUD methods,
modelled as pure functions over an explicit database state.  Timestamps are
modelled as `Nat` ticks (`datetime.datetime.now()` becomes an explicit `now`
argument, one per write call, matching the single `now = datetime.datetime.now()`
in each add method).  The JSON `preferences` blob is modelled as an
association list.  SQLAlchemy query chains become list pipelines: `filter`
is `List.filter`, `order_by` is `List.insertionSort`, and `limit`/`offset`
are the SQL LIMIT/OFFset clauses (drop then take).  `session.commit()` is
the point where the returned database state is formed; each write performs
exactly one such transition.  Constraint checks (UNIQUE, FOREIGN KEY with
`ON DELETE CASCADE`, enforced because `_set_sqlite_pragma` turns
`foreign_keys=ON`) live in the schema, so writes return `Except` and the
cascade is part of the delete transition.
-/

/-- Row of the `user` table (orm.py class `User`, lines 31–43).  `username` is
unique and required, `email` unique and nullable, `password` and
`last_login_time` nullable. -/
structure User where
  id : Nat
  username : String
  password : Option String
  email : Option String
  default_preset : String
  created_time : Nat
  last_login_time : Option Nat
  preferences : List (String × String)
deriving Repr, DecidableEq

/-- Row of the `conversation` table (orm.py class `Conversation`, lines 52–63).
`user_id` is a required foreign key to `user.id` with `ON DELETE CASCADE`. -/
structure Conversation where
  id : Nat
  user_id : Nat
  title : Option String
  created_time : Nat
  updated_time : Nat
  hidden : Bool
deriving Repr, DecidableEq

/-- Row of the `message` table (orm.py class `Message`, lines 72–86).
`conversation_id` is a required foreign key to `conversation.id` with
`ON DELETE CASCADE`; `message_metadata` is the only nullable column. -/
structure Message where
  id : Nat
  conversation_id : Nat
  role : String
  message : String
  message_type : String
  message_metadata : Option String
  model : String
  provider : String
  preset : String
  created_time : Nat
deriving Repr, DecidableEq

/-- The committed database state reachable through the `Manager`'s session:
the three tables plus the autoincrement counters of their integer primary
keys. -/
structure DB where
  users : List User
  conversations : List Conversation
  messages : List Message
  nextUserId : Nat
  nextConversationId : Nat
  nextMessageId : Nat
deriving Repr, DecidableEq

/-- `ORDER BY username` on the `user` table. -/
def usernameLe (a b : User) : Prop := a.username ≤ b.username

/-- `ORDER BY conversation.id` ascending. -/
def convIdLe (a b : Conversation) : Prop := a.id ≤ b.id

/-- `ORDER BY conversation.id DESC`. -/
def convIdGe (a b : Conversation) : Prop := b.id ≤ a.id

/-- `ORDER BY message.id` ascending. -/
def msgIdLe (a b : Message) : Prop := a.id ≤ b.id

/-- `ORDER BY message.id DESC`. -/
def msgIdGe (a b : Message) : Prop := b.id ≤ a.id

instance : DecidableRel usernameLe :=
  fun a b => inferInstanceAs (Decidable (a.username ≤ b.username))

instance : IsTotal User usernameLe := ⟨fun a b => le_total a.username b.username⟩

instance : IsTrans User usernameLe := ⟨fun _ _ _ hab hbc => le_trans hab hbc⟩

instance : DecidableRel convIdLe :=
  fun a b => inferInstanceAs (Decidable (a.id ≤ b.id))

instance : IsTotal Conversation convIdLe := ⟨fun a b => Nat.le_total a.id b.id⟩

instance : IsTrans Conversation convIdLe := ⟨fun _ _ _ hab hbc => Nat.le_trans hab hbc⟩

instance : DecidableRel convIdGe :=
  fun a b => inferInstanceAs (Decidable (b.id ≤ a.id))

instance : IsTotal Conversation convIdGe := ⟨fun a b => Nat.le_total b.id a.id⟩

instance : IsTrans Conversation convIdGe := ⟨fun _ _ _ hab hbc => Nat.le_trans hbc hab⟩

instance : DecidableRel msgIdLe :=
  fun a b => inferInstanceAs (Decidable (a.id ≤ b.id))

instance : IsTotal Message msgIdLe := ⟨fun a b => Nat.le_total a.id b.id⟩

instance : IsTrans Message msgIdLe := ⟨fun _ _ _ hab hbc => Nat.le_trans hab hbc⟩

instance : DecidableRel msgIdGe :=
  fun a b => inferInstanceAs (Decidable (b.id ≤ a.id))

instance : IsTotal Message msgIdGe := ⟨fun a b => Nat.le_total b.id a.id⟩

instance : IsTrans Message msgIdGe := ⟨fun _ _ _ hab hbc => Nat.le_trans hbc hab⟩

/-- `Manager._apply_limit_offset` (orm.py lines 130–135): `.limit(n)` and
`.offset(o)` emit the SQL LIMIT/OFFSET clauses, whose semantics is to skip
`offset` rows and then keep at most `limit` rows, whichever order the builder
calls were made in. -/
def applyLimitOffset (l : List α) (limit offset : Option Nat) : List α :=
  let afterOffset := match offset with
    | some o => l.drop o
    | none => l
  match limit with
  | some n => afterOffset.take n
  | none => afterOffset

/-- `Manager.orm_get_users` (orm.py lines 137–142): all users ordered by
username, with limit/offset applied. -/
def orm_get_users (db : DB) (limit offset : Option Nat) : List User :=
  applyLimitOffset (List.insertionSort usernameLe db.users) limit offset

/-- `Manager.orm_get_conversations` (orm.py lines 144–152).  Note the two
branches of the source: the `order_desc` branch filters on
`Conversation.user_id == user.id` and orders by id descending; the other
branch orders by id ascending WITHOUT the user filter. -/
def orm_get_conversations (db : DB) (user : User) (limit offset : Option Nat)
    (order_desc : Bool) : List Conversation :=
  let query := if order_desc then
      List.insertionSort convIdGe
        (db.conversations.filter (fun c => c.user_id == user.id))
    else
      List.insertionSort convIdLe db.conversations
  applyLimitOffset query limit offset

/-- `Manager.orm_get_messages` (orm.py lines 154–161): the conversation's
messages ordered by id ascending, limit/offset applied, then `if target_id:`
adds the `Message.id <= target_id` restriction — Python truthiness, so both
`None` and `0` skip it.  Because the source calls `.filter()` AFTER
`_apply_limit_offset`, SQLAlchemy raises `InvalidRequestError` whenever a
limit or offset has been applied and `target_id` is truthy; the remaining
paths return the row list. -/
def orm_get_messages (db : DB) (conversation : Conversation)
    (limit offset : Option Nat) (target_id : Option Nat) :
    Except String (List Message) :=
  let query := List.insertionSort msgIdLe
    (db.messages.filter (fun m => m.conversation_id == conversation.id))
  let query := applyLimitOffset query limit offset
  match target_id with
  | some t =>
    if t = 0 then .ok query
    else if limit.isSome || offset.isSome then
      .error "InvalidRequestError: Query.filter() being called on a Query which already has LIMIT or OFFSET applied"
    else .ok (query.filter (fun m => decide (m.id ≤ t)))
  | none => .ok query

/-- `Manager.orm_get_last_message` (orm.py lines 163–167): the conversation's
messages ordered by id descending, `limit(1)`, then `.first()`. -/
def orm_get_last_message (db : DB) (conversation : Conversation) : Option Message :=
  ((List.insertionSort msgIdGe
    (db.messages.filter (fun m => m.conversation_id == conversation.id))).take 1).head?

/-- `Manager.orm_get_user` (orm.py lines 197–200): `session.get(User, user_id)`,
primary-key lookup. -/
def orm_get_user (db : DB) (user_id : Nat) : Option User :=
  db.users.find? (fun u => u.id == user_id)

/-- `Manager.orm_get_conversation` (orm.py lines 202–205): primary-key lookup. -/
def orm_get_conversation (db : DB) (conversation_id : Nat) : Option Conversation :=
  db.conversations.find? (fun c => c.id == conversation_id)

/-- `Manager.orm_get_message` (orm.py lines 207–210): primary-key lookup. -/
def orm_get_message (db : DB) (message_id : Nat) : Option Message :=
  db.messages.find? (fun m => m.id == message_id)

/-- UNIQUE constraints of the `user` table (orm.py lines 35, 37), checked by
the database at commit against the other rows: `username` unique, `email`
unique but nullable (SQL NULLs never collide). -/
def user_row_ok (others : List User) (u : User) : Bool :=
  others.all (fun v => v.username != u.username) &&
    (match u.email with
      | none => true
      | some e => others.all (fun v => v.email != some e))

/-- `Manager.orm_add_user` (orm.py lines 169–176).  `preferences or {}` maps
`None` to `{}` and leaves any supplied dict unchanged (an empty dict is
replaced by the equal empty dict).  The new row takes the next autoincrement
id; `created_time` and `last_login_time` are both set to `now`.  The commit
raises `IntegrityError` when a UNIQUE constraint fails. -/
def orm_add_user (db : DB) (username : String) (password email : Option String)
    (default_preset : String) (preferences : Option (List (String × String)))
    (now : Nat) : Except String (DB × User) :=
  let user : User :=
    { id := db.nextUserId, username, password, email, default_preset,
      created_time := now, last_login_time := some now,
      preferences := preferences.getD [] }
  if user_row_ok db.users user then
    .ok ({ db with users := db.users ++ [user], nextUserId := db.nextUserId + 1 }, user)
  else
    .error "IntegrityError: UNIQUE constraint failed"

/-- `Manager.orm_add_conversation` (orm.py lines 178–184).  The source builds
the row with the literal `hidden=False`, ignoring the method's `hidden`
argument.  The FOREIGN KEY on `user_id` is checked at commit. -/
def orm_add_conversation (db : DB) (user : User) (title : Option String)
    (hidden : Bool) (now : Nat) : Except String (DB × Conversation) :=
  let conversation : Conversation :=
    { id := db.nextConversationId, user_id := user.id, title,
      created_time := now, updated_time := now, hidden := false }
  if db.users.any (fun u => u.id == conversation.user_id) then
    .ok ({ db with
           conversations := db.conversations ++ [conversation],
           nextConversationId := db.nextConversationId + 1 }, conversation)
  else
    .error "IntegrityError: FOREIGN KEY constraint failed"

/-- `Manager.orm_add_message` (orm.py lines 186–195): builds the Message with
`created_time = now`, re-loads the parent conversation by id
(`orm_get_conversation`), sets its `updated_time` to the same `now`, and
commits both changes in one transaction.  When the conversation id is not
present, `setattr(None, ...)` raises `AttributeError`. -/
def orm_add_message (db : DB) (conversation : Conversation)
    (role msg message_type : String) (message_metadata : Option String)
    (provider model preset : String) (now : Nat) : Except String (DB × Message) :=
  let message : Message :=
    { id := db.nextMessageId, conversation_id := conversation.id, role,
      message := msg, message_type, message_metadata, model, provider, preset,
      created_time := now }
  match orm_get_conversation db conversation.id with
  | none => .error "AttributeError"
  | some _ =>
    .ok ({ db with
           messages := db.messages ++ [message],
           conversations := db.conversations.map
             (fun c => if c.id == conversation.id then { c with updated_time := now } else c),
           nextMessageId := db.nextMessageId + 1 }, message)

/-- Names of the editable (non-primary-key) columns of `user`. -/
inductive UserField where
  | username
  | password
  | email
  | default_preset
  | created_time
  | last_login_time
  | preferences
deriving Repr, DecidableEq

/-- One `key=value` keyword argument of `orm_edit_user` (orm.py line 212):
`setattr(user, key, value)` for a column of the `user` table. -/
inductive UserUpdate where
  | username : String → UserUpdate
  | password : Option String → UserUpdate
  | email : Option String → UserUpdate
  | default_preset : String → UserUpdate
  | created_time : Nat → UserUpdate
  | last_login_time : Option Nat → UserUpdate
  | preferences : List (String × String) → UserUpdate
deriving Repr, DecidableEq

/-- The keyword (column name) of a `UserUpdate`. -/
def UserUpdate.key : UserUpdate → UserField
  | .username _ => .username
  | .password _ => .password
  | .email _ => .email
  | .default_preset _ => .default_preset
  | .created_time _ => .created_time
  | .last_login_time _ => .last_login_time
  | .preferences _ => .preferences

/-- `setattr(user, key, value)` for one keyword argument. -/
def setUserAttr (u : User) : UserUpdate → User
  | .username v => { u with username := v }
  | .password v => { u with password := v }
  | .email v => { u with email := v }
  | .default_preset v => { u with default_preset := v }
  | .created_time v => { u with created_time := v }
  | .last_login_time v => { u with last_login_time := v }
  | .preferences v => { u with preferences := v }

/-- Names of the editable (non-primary-key) columns of `conversation`. -/
inductive ConversationField where
  | user_id
  | title
  | created_time
  | updated_time
  | hidden
deriving Repr, DecidableEq

/-- One `key=value` keyword argument of `orm_edit_conversation`
(orm.py line 219). -/
inductive ConversationUpdate where
  | user_id : Nat → ConversationUpdate
  | title : Option String → ConversationUpdate
  | created_time : Nat → ConversationUpdate
  | updated_time : Nat → ConversationUpdate
  | hidden : Bool → ConversationUpdate
deriving Repr, DecidableEq

/-- The keyword (column name) of a `ConversationUpdate`. -/
def ConversationUpdate.key : ConversationUpdate → ConversationField
  | .user_id _ => .user_id
  | .title _ => .title
  | .created_time _ => .created_time
  | .updated_time _ => .updated_time
  | .hidden _ => .hidden

/-- `setattr(conversation, key, value)` for one keyword argument. -/
def setConversationAttr (c : Conversation) : ConversationUpdate → Conversation
  | .user_id v => { c with user_id := v }
  | .title v => { c with title := v }
  | .created_time v => { c with created_time := v }
  | .updated_time v => { c with updated_time := v }
  | .hidden v => { c with hidden := v }

/-- Names of the editable (non-primary-key) columns of `message`. -/
inductive MessageField where
  | conversation_id
  | role
  | message
  | message_type
  | message_metadata
  | model
  | provider
  | preset
  | created_time
deriving Repr, DecidableEq

/-- One `key=value` keyword argument of `orm_edit_message` (orm.py line 226). -/
inductive MessageUpdate where
  | conversation_id : Nat → MessageUpdate
  | role : String → MessageUpdate
  | message : String → MessageUpdate
  | message_type : String → MessageUpdate
  | message_metadata : Option String → MessageUpdate
  | model : String → MessageUpdate
  | provider : String → MessageUpdate
  | preset : String → MessageUpdate
  | created_time : Nat → MessageUpdate
deriving Repr, DecidableEq

/-- The keyword (column name) of a `MessageUpdate`. -/
def MessageUpdate.key : MessageUpdate → MessageField
  | .conversation_id _ => .conversation_id
  | .role _ => .role
  | .message _ => .message
  | .message_type _ => .message_type
  | .message_metadata _ => .message_metadata
  | .model _ => .model
  | .provider _ => .provider
  | .preset _ => .preset
  | .created_time _ => .created_time

/-- `setattr(message, key, value)` for one keyword argument. -/
def setMessageAttr (m : Message) : MessageUpdate → Message
  | .conversation_id v => { m with conversation_id := v }
  | .role v => { m with role := v }
  | .message v => { m with message := v }
  | .message_type v => { m with message_type := v }
  | .message_metadata v => { m with message_metadata := v }
  | .model v => { m with model := v }
  | .provider v => { m with provider := v }
  | .preset v => { m with preset := v }
  | .created_time v => { m with created_time := v }

/-- `Manager.orm_edit_user` (orm.py lines 212–217): apply every keyword
argument with `setattr`, then commit.  The commit persists the updated row
under its primary key; UNIQUE constraints are checked against the other
rows. -/
def orm_edit_user (db : DB) (user : User) (kwargs : List UserUpdate) :
    Except String (DB × User) :=
  let user' := kwargs.foldl setUserAttr user
  let users' := db.users.map (fun v => if v.id == user.id then user' else v)
  if user_row_ok (db.users.filter (fun v => v.id != user.id)) user' then
    .ok ({ db with users := users' }, user')
  else
    .error "IntegrityError: UNIQUE constraint failed"

/-- `Manager.orm_edit_conversation` (orm.py lines 219–224): apply every
keyword argument with `setattr`, then commit.  The FOREIGN KEY on `user_id`
is checked at commit. -/
def orm_edit_conversation (db : DB) (conversation : Conversation)
    (kwargs : List ConversationUpdate) : Except String (DB × Conversation) :=
  let conversation' := kwargs.foldl setConversationAttr conversation
  let conversations' := db.conversations.map
    (fun c => if c.id == conversation.id then conversation' else c)
  if db.users.any (fun u => u.id == conversation'.user_id) then
    .ok ({ db with conversations := conversations' }, conversation')
  else
    .error "IntegrityError: FOREIGN KEY constraint failed"

/-- `Manager.orm_edit_message` (orm.py lines 226–231): apply every keyword
argument with `setattr`, then commit.  The FOREIGN KEY on `conversation_id`
is checked at commit. -/
def orm_edit_message (db : DB) (message : Message) (kwargs : List MessageUpdate) :
    Except String (DB × Message) :=
  let message' := kwargs.foldl setMessageAttr message
  let messages' := db.messages.map (fun m => if m.id == message.id then message' else m)
  if db.conversations.any (fun c => c.id == message'.conversation_id) then
    .ok ({ db with messages := messages' }, message')
  else
    .error "IntegrityError: FOREIGN KEY constraint failed"

/-- `Manager.orm_delete_user` (orm.py lines 233–237): delete the user row and
commit.  With `PRAGMA foreign_keys=ON` the `ON DELETE CASCADE` clauses make
the storage layer also remove the user's conversations and, transitively,
those conversations' messages.  Returns the deleted user. -/
def orm_delete_user (db : DB) (user : User) : DB × User :=
  let cascaded := db.conversations.filter (fun c => c.user_id == user.id)
  ({ db with
     users := db.users.filter (fun u => u.id != user.id),
     conversations := db.conversations.filter (fun c => c.user_id != user.id),
     messages := db.messages.filter
       (fun m => !(cascaded.any (fun c => c.id == m.conversation_id))) },
   user)

/-- `Manager.orm_delete_conversation` (orm.py lines 239–242): delete the
conversation row and commit; the cascade removes its messages.  The Python
method has no `return` statement, so it returns `None`. -/
def orm_delete_conversation (db : DB) (conversation : Conversation) :
    DB × Option Conversation :=
  ({ db with
     conversations := db.conversations.filter (fun c => c.id != conversation.id),
     messages := db.messages.filter (fun m => m.conversation_id != conversation.id) },
   none)

/-- `Manager.orm_delete_message` (orm.py lines 244–247): delete the message
row and commit.  The Python method has no `return` statement, so it returns
`None`. -/
def orm_delete_message (db : DB) (message : Message) : DB × Option Message :=
  ({ db with messages := db.messages.filter (fun m => m.id != message.id) }, none)

/-- Referential integrity of the stored state: every conversation references
an existing user and every message references an existing conversation (the
FOREIGN KEY constraints of the schema, orm.py lines 56 and 76). -/
def refIntegrity (db : DB) : Prop :=
  (∀ c ∈ db.conversations, ∃ u ∈ db.users, u.id = c.user_id) ∧
    (∀ m ∈ db.messages, ∃ c ∈ db.conversations, c.id = m.conversation_id)

instance (db : DB) : Decidable (refIntegrity db) := by
  unfold refIntegrity
  infer_instance

/-- The update `upd` has taken effect on the row `u` (the named column holds
the value given in the keyword argument). -/
def appliedUserUpdate (u : User) : UserUpdate → Prop
  | .username v => u.username = v
  | .password v => u.password = v
  | .email v => u.email = v
  | .default_preset v => u.default_preset = v
  | .created_time v => u.created_time = v
  | .last_login_time v => u.last_login_time = v
  | .preferences v => u.preferences = v

/-- Column `f` holds the same value in rows `a` and `b`. -/
def userFieldUnchanged (a b : User) : UserField → Prop
  | .username => b.username = a.username
  | .password => b.password = a.password
  | .email => b.email = a.email
  | .default_preset => b.default_preset = a.default_preset
  | .created_time => b.created_time = a.created_time
  | .last_login_time => b.last_login_time = a.last_login_time
  | .preferences => b.preferences = a.preferences

/-- The update `upd` has taken effect on the row `c`. -/
def appliedConversationUpdate (c : Conversation) : ConversationUpdate → Prop
  | .user_id v => c.user_id = v
  | .title v => c.title = v
  | .created_time v => c.created_time = v
  | .updated_time v => c.updated_time = v
  | .hidden v => c.hidden = v

/-- Column `f` holds the same value in rows `a` and `b`. -/
def conversationFieldUnchanged (a b : Conversation) : ConversationField → Prop
  | .user_id => b.user_id = a.user_id
  | .title => b.title = a.title
  | .created_time => b.created_time = a.created_time
  | .updated_time => b.updated_time = a.updated_time
  | .hidden => b.hidden = a.hidden

/-- The update `upd` has taken effect on the row `m`. -/
def appliedMessageUpdate (m : Message) : MessageUpdate → Prop
  | .conversation_id v => m.conversation_id = v
  | .role v => m.role = v
  | .message v => m.message = v
  | .message_type v => m.message_type = v
  | .message_metadata v => m.message_metadata = v
  | .model v => m.model = v
  | .provider v => m.provider = v
  | .preset v => m.preset = v
  | .created_time v => m.created_time = v

/-- Column `f` holds the same value in rows `a` and `b`. -/
def messageFieldUnchanged (a b : Message) : MessageField → Prop
  | .conversation_id => b.conversation_id = a.conversation_id
  | .role => b.role = a.role
  | .message => b.message = a.message
  | .message_type => b.message_type = a.message_type
  | .message_metadata => b.message_metadata = a.message_metadata
  | .model => b.model = a.model
  | .provider => b.provider = a.provider
  | .preset => b.preset = a.preset
  | .created_time => b.created_time = a.created_time

/-- Sample row: user 1. -/
def alice : User :=
  { id := 1, username := "alice", password := some "pw1",
    email := some "alice@example.com", default_preset := "standard",
    created_time := 10, last_login_time := some 10,
    preferences := [("shell", "on")] }

/-- Sample row: user 2. -/
def bob : User :=
  { id := 2, username := "bob", password := none, email := none,
    default_preset := "", created_time := 11, last_login_time := none,
    preferences := [] }

/-- Sample row: conversation 1, owned by user 1. -/
def convA : Conversation :=
  { id := 1, user_id := 1, title := some "first", created_time := 12,
    updated_time := 13, hidden := false }

/-- Sample row: conversation 2, owned by user 2. -/
def convB : Conversation :=
  { id := 2, user_id := 2, title := none, created_time := 14,
    updated_time := 14, hidden := true }

/-- Sample row: message 1 in conversation 1. -/
def msgA : Message :=
  { id := 1, conversation_id := 1, role := "user", message := "hi",
    message_type := "content", message_metadata := none, model := "m1",
    provider := "p1", preset := "", created_time := 13 }

/-- Sample row: message 2 in conversation 1. -/
def msgB : Message :=
  { id := 2, conversation_id := 1, role := "assistant", message := "hello",
    message_type := "content", message_metadata := some "x", model := "m1",
    provider := "p1", preset := "", created_time := 13 }

/-- Sample row: message 3 in conversation 2. -/
def msgC : Message :=
  { id := 3, conversation_id := 2, role := "user", message := "yo",
    message_type := "content", message_metadata := none, model := "m2",
    provider := "p2", preset := "", created_time := 14 }

/-- Sample database state with two users, two conversations and three
messages; it satisfies referential integrity and its autoincrement counters
are ahead of every stored id. -/
def dbMain : DB :=
  { users := [alice, bob], conversations := [convA, convB],
    messages := [msgA, msgB, msgC], nextUserId := 3, nextConversationId := 3,
    nextMessageId := 4 }

/-- Empty sample database state. -/
def dbEmpty : DB :=
  { users := [], conversations := [], messages := [], nextUserId := 1,
    nextConversationId := 1, nextMessageId := 1 }

/-- The conversation row created by `orm_add_conversation dbMain alice none true 20`. -/
def convC10 : Conversation :=
  { id := 3, user_id := 1, title := none, created_time := 20,
    updated_time := 20, hidden := false }

/-- The database state after `orm_add_conversation dbMain alice none true 20`. -/
def dbC10 : DB :=
  { users := [alice, bob], conversations := [convA, convB, convC10],
    messages := [msgA, msgB, msgC], nextUserId := 3, nextConversationId := 4,
    nextMessageId := 4 }

/-- Sample database state with a single user (used where a witness must
evaluate a username-ordered query: sorting one row makes no string
comparisons). -/
def dbSolo : DB :=
  { users := [alice], conversations := [], messages := [], nextUserId := 2,
    nextConversationId := 1, nextMessageId := 1 }

/-- The user row created by `orm_add_user dbMain "carol" ... 30`. -/
def userCarol : User :=
  { id := 3, username := "carol", password := some "pw3",
    email := some "carol@example.com", default_preset := "chat",
    created_time := 30, last_login_time := some 30,
    preferences := [("lang", "en")] }

/-- The database state after `orm_add_user dbMain "carol" ... 30`. -/
def dbAddU : DB :=
  { users := [alice, bob, userCarol], conversations := [convA, convB],
    messages := [msgA, msgB, msgC], nextUserId := 4, nextConversationId := 3,
    nextMessageId := 4 }

/-- The message row created by adding a message to conversation 1 of the
sample store at time 21. -/
def msgNew : Message :=
  { id := 4, conversation_id := 1, role := "user", message := "q",
    message_type := "content", message_metadata := none, model := "m1",
    provider := "p1", preset := "", created_time := 21 }

/-- Conversation 1 after its `updated_time` was stamped to 21. -/
def convA21 : Conversation := { convA with updated_time := 21 }

/-- The database state after adding `msgNew` to conversation 1 at time 21. -/
def dbAddM : DB :=
  { users := [alice, bob], conversations := [convA21, convB],
    messages := [msgA, msgB, msgC, msgNew], nextUserId := 3,
    nextConversationId := 3, nextMessageId := 5 }

/-- User 1 after `orm_edit_user(alice, default_preset="new")`. -/
def aliceEdited : User := { alice with default_preset := "new" }

/-- The database state after editing user 1. -/
def dbEditU : DB := { dbMain with users := [aliceEdited, bob] }

/-- Conversation 1 after `orm_edit_conversation(convA, title="renamed")`. -/
def convARenamed : Conversation := { convA with title := some "renamed" }

/-- The database state after editing conversation 1. -/
def dbEditC : DB := { dbMain with conversations := [convARenamed, convB] }

/-- Message 1 after `orm_edit_message(msgA, role="system")`. -/
def msgASystem : Message := { msgA with role := "system" }

/-- The database state after editing message 1. -/
def dbEditM : DB := { dbMain with messages := [msgASystem, msgB, msgC] }

theorem applyLimitOffset_sublist (l : List α) (limit offset : Option Nat) :
    List.Sublist (applyLimitOffset l limit offset) l := by
  unfold applyLimitOffset
  cases limit with
  | none =>
    cases offset with
    | none => exact List.Sublist.refl l
    | some o => exact List.drop_sublist o l
  | some n =>
    cases offset with
    | none => exact List.take_sublist n l
    | some o => exact (List.take_sublist n _).trans (List.drop_sublist o l)

theorem mem_of_applyLimitOffset {l : List α} {limit offset : Option Nat} {a : α}
    (h : a ∈ applyLimitOffset l limit offset) : a ∈ l :=
  (applyLimitOffset_sublist l limit offset).subset h

theorem applyLimitOffset_length_le (l : List α) (offset : Option Nat) (n : Nat) :
    (applyLimitOffset l (some n) offset).length ≤ n := by
  unfold applyLimitOffset
  cases offset with
  | none => simp
  | some o => simp

/-- C1: the claim fails on the code.  Calling
`orm_get_conversations(user=alice, limit=None, offset=None, order_desc=False)`
on a store holding a conversation of alice (id 1) and one of bob (id 2)
returns BOTH conversations in ascending id order: the `order_desc=False`
branch of the source omits the `user_id` filter, contradicting the claim
(and the spec sentence and the method's own log line) that only the given
user's conversations are returned. -/
theorem orm_get_conversations_asc_ignores_user :
    orm_get_conversations dbMain alice none none false = [convA, convB] ∧
      convB ∈ orm_get_conversations dbMain alice none none false ∧
      convB.user_id ≠ alice.id := by
  decide

/-- C10: for every user, title, value of the `hidden` argument and call time,
a successfully created conversation has `hidden = false` — the source builds
the row with the literal `hidden=False`, ignoring the argument. -/
theorem orm_add_conversation_hidden_false (db : DB) (user : User)
    (title : Option String) (hidden : Bool) (now : Nat) (db' : DB)
    (c : Conversation)
    (h : orm_add_conversation db user title hidden now = .ok (db', c)) :
    c.hidden = false := by
  simp only [orm_add_conversation] at h
  split at h
  · simp only [Except.ok.injEq, Prod.mk.injEq] at h
    obtain ⟨-, hc⟩ := h
    subst hc
    rfl
  · exact Except.noConfusion h

/-- C10 witness: `orm_add_conversation dbMain alice none true 20` succeeds and
the created conversation has `hidden = false` although `hidden=True` was
passed. -/
theorem orm_add_conversation_hidden_false_witness :
    orm_add_conversation dbMain alice none true 20 = .ok (dbC10, convC10) ∧
      convC10.hidden = false :=
  ⟨by rfl,
   orm_add_conversation_hidden_false dbMain alice none true 20 dbC10 convC10 (by rfl)⟩

/-- C2 counterexample: with `limit` given and a truthy `target_id`, the
source calls `Query.filter()` on a query that already has LIMIT applied, so
SQLAlchemy raises `InvalidRequestError` and no message list is returned —
the claim, which promises a result list for every limit and offset, fails at
this concrete input. -/
theorem orm_get_messages_limit_target_raises :
    orm_get_messages dbMain convA (some 10) none (some 1) =
        .error "InvalidRequestError: Query.filter() being called on a Query which already has LIMIT or OFFSET applied" ∧
      ∀ l, orm_get_messages dbMain convA (some 10) none (some 1) ≠ .ok l := by
  have herr : orm_get_messages dbMain convA (some 10) none (some 1) =
      .error "InvalidRequestError: Query.filter() being called on a Query which already has LIMIT or OFFSET applied" := rfl
  exact ⟨herr, fun l h => Except.noConfusion (herr.symm.trans h)⟩

/-- C2 amended: for every conversation, limit, offset and positive id value
`t` (integer primary keys are autoincremented from 1, and `if target_id:`
treats `0` like `None`): any message list the call returns consists of
stored messages of that conversation with id at most `t`, ordered by id
ascending; with no limit and no offset the call does return such a list; and
whenever a limit or offset is given the call raises `InvalidRequestError`
instead of returning a list. -/
theorem orm_get_messages_target_id_spec (db : DB) (conversation : Conversation)
    (limit offset : Option Nat) (t : Nat) (ht : 0 < t) :
    (∀ l, orm_get_messages db conversation limit offset (some t) = .ok l →
      (∀ m ∈ l, m ∈ db.messages ∧ m.conversation_id = conversation.id ∧ m.id ≤ t) ∧
        List.Sorted msgIdLe l) ∧
      (∃ l, orm_get_messages db conversation none none (some t) = .ok l) ∧
      ((limit.isSome || offset.isSome) = true →
        ∀ l, orm_get_messages db conversation limit offset (some t) ≠ .ok l) := by
  have ht' : ¬t = 0 := Nat.pos_iff_ne_zero.mp ht
  refine ⟨?_, ?_, ?_⟩
  · intro l hl
    simp only [orm_get_messages, if_neg ht'] at hl
    split at hl
    · exact Except.noConfusion hl
    · simp only [Except.ok.injEq] at hl
      subst hl
      constructor
      · intro m hm
        rw [List.mem_filter] at hm
        obtain ⟨hm1, hm2⟩ := hm
        have hm3 := mem_of_applyLimitOffset hm1
        rw [List.mem_insertionSort, List.mem_filter] at hm3
        refine ⟨hm3.1, ?_, of_decide_eq_true hm2⟩
        exact eq_of_beq hm3.2
      · have hsorted := List.sorted_insertionSort msgIdLe
          (db.messages.filter (fun m => m.conversation_id == conversation.id))
        exact (hsorted.sublist (applyLimitOffset_sublist _ limit offset)).sublist
          (List.filter_sublist _)
  · refine ⟨(List.insertionSort msgIdLe
        (db.messages.filter (fun m => m.conversation_id == conversation.id))).filter
        (fun m => decide (m.id ≤ t)), ?_⟩
    simp only [orm_get_messages, if_neg ht']
    rfl
  · intro hs l hl
    simp only [orm_get_messages, if_neg ht', hs] at hl
    exact Except.noConfusion hl

/-- C2 witness: on the sample store, `orm_get_messages(convA, target_id=1)`
with no limit and no offset returns `[msgA]`, and the amended specification
holds there at `t = 1`. -/
theorem orm_get_messages_target_id_spec_witness :
    0 < 1 ∧
      orm_get_messages dbMain convA none none (some 1) = .ok [msgA] ∧
      ((∀ l, orm_get_messages dbMain convA none none (some 1) = .ok l →
        (∀ m ∈ l, m ∈ dbMain.messages ∧ m.conversation_id = convA.id ∧ m.id ≤ 1) ∧
          List.Sorted msgIdLe l) ∧
      (∃ l, orm_get_messages dbMain convA none none (some 1) = .ok l) ∧
      (((none : Option Nat).isSome || (none : Option Nat).isSome) = true →
        ∀ l, orm_get_messages dbMain convA none none (some 1) ≠ .ok l)) :=
  ⟨by decide, by rfl,
   orm_get_messages_target_id_spec dbMain convA none none 1 (by decide)⟩

/-- C8: `orm_get_last_message(conversation)` returns `None` exactly when the
conversation has no stored messages, and otherwise returns a stored message
of the conversation whose id is greatest among the conversation's
messages. -/
theorem orm_get_last_message_spec (db : DB) (conversation : Conversation) :
    (orm_get_last_message db conversation = none ↔
        ∀ m ∈ db.messages, m.conversation_id ≠ conversation.id) ∧
      ∀ m, orm_get_last_message db conversation = some m →
        m ∈ db.messages ∧ m.conversation_id = conversation.id ∧
          ∀ m' ∈ db.messages, m'.conversation_id = conversation.id → m'.id ≤ m.id := by
  have hhead : ∀ (s : List Message), (s.take 1).head? = s.head? := by
    intro s
    cases s <;> rfl
  set l := db.messages.filter (fun m => m.conversation_id == conversation.id) with hl
  have hperm := List.perm_insertionSort msgIdGe l
  have hsorted := List.sorted_insertionSort msgIdGe l
  have hres : orm_get_last_message db conversation =
      (List.insertionSort msgIdGe l).head? := by
    rw [orm_get_last_message, hhead]
  constructor
  · rw [hres, List.head?_eq_none_iff]
    constructor
    · intro hnil m hm hpm
      have hlen := hperm.length_eq
      rw [hnil] at hlen
      have hlnil : l = [] := List.length_eq_zero.mp hlen.symm
      have hml : m ∈ l := by
        rw [hl, List.mem_filter]
        exact ⟨hm, by simp [hpm]⟩
      rw [hlnil] at hml
      exact absurd hml (List.not_mem_nil m)
    · intro hall
      have hlnil : l = [] := by
        rw [hl]
        refine List.filter_eq_nil_iff.mpr ?_
        intro m hm
        simp [hall m hm]
      rw [hlnil]
      rfl
  · intro m hm
    rw [hres] at hm
    cases hs : List.insertionSort msgIdGe l with
    | nil =>
      rw [hs] at hm
      exact Option.noConfusion hm
    | cons a tail =>
      rw [hs] at hm
      simp only [List.head?_cons, Option.some.injEq] at hm
      subst hm
      have hmem : a ∈ l := by
        rw [← hperm.mem_iff, hs]
        exact List.mem_cons_self a tail
      rw [hl, List.mem_filter] at hmem
      refine ⟨hmem.1, by simpa using hmem.2, ?_⟩
      intro m' hm' hpm'
      have hmem' : m' ∈ List.insertionSort msgIdGe l := by
        rw [hperm.mem_iff, hl, List.mem_filter]
        exact ⟨hm', by simp [hpm']⟩
      rw [hs, List.mem_cons] at hmem'
      rcases hmem' with h | h
      · subst h
        exact Nat.le_refl _
      · rw [hs] at hsorted
        exact List.rel_of_sorted_cons hsorted m' h

/-- C8 witness: on the sample store the last message of conversation 1 is
message 2, and it satisfies the specification. -/
theorem orm_get_last_message_spec_witness :
    orm_get_last_message dbMain convA = some msgB ∧
      (msgB ∈ dbMain.messages ∧ msgB.conversation_id = convA.id ∧
        ∀ m' ∈ dbMain.messages, m'.conversation_id = convA.id → m'.id ≤ msgB.id) :=
  ⟨by decide, (orm_get_last_message_spec dbMain convA).2 msgB (by decide)⟩

/-- C9: `orm_get_users(limit, offset)` returns only stored users, ordered
by username, at most `limit` of them when `limit` is given; the full listing
(no limit, no offset) is a permutation of the stored users — every stored
user appears exactly once — and the limited/offset result is exactly the
limit/offset window of that full ordered listing. -/
theorem orm_get_users_spec (db : DB) (limit offset : Option Nat) :
    (∀ u ∈ orm_get_users db limit offset, u ∈ db.users) ∧
      List.Sorted usernameLe (orm_get_users db limit offset) ∧
      (∀ n, limit = some n → (orm_get_users db limit offset).length ≤ n) ∧
      orm_get_users db limit offset =
        applyLimitOffset (orm_get_users db none none) limit offset ∧
      List.Perm (orm_get_users db none none) db.users := by
  refine ⟨?_, ?_, ?_, rfl, List.perm_insertionSort usernameLe db.users⟩
  · intro u hu
    have hmem := mem_of_applyLimitOffset hu
    rwa [List.mem_insertionSort] at hmem
  · exact (List.sorted_insertionSort usernameLe db.users).sublist
      (applyLimitOffset_sublist _ limit offset)
  · intro n hn
    subst hn
    exact applyLimitOffset_length_le _ offset n

/-- C9 witness: on the single-user store, `orm_get_users(limit=1, offset=0)`
satisfies the specification: its element is stored, the result is sorted and
within the length bound, it is the window of the full listing, and the full
listing is a permutation of the stored users. -/
theorem orm_get_users_spec_witness :
    alice ∈ dbSolo.users ∧
      List.Sorted usernameLe (orm_get_users dbSolo (some 1) (some 0)) ∧
      (orm_get_users dbSolo (some 1) (some 0)).length ≤ 1 ∧
      orm_get_users dbSolo (some 1) (some 0) =
        applyLimitOffset (orm_get_users dbSolo none none) (some 1) (some 0) ∧
      List.Perm (orm_get_users dbSolo none none) dbSolo.users :=
  ⟨(orm_get_users_spec dbSolo (some 1) (some 0)).1 alice (by decide),
   (orm_get_users_spec dbSolo (some 1) (some 0)).2.1,
   (orm_get_users_spec dbSolo (some 1) (some 0)).2.2.1 1 rfl,
   (orm_get_users_spec dbSolo (some 1) (some 0)).2.2.2.1,
   (orm_get_users_spec dbSolo (some 1) (some 0)).2.2.2.2⟩

/-- C3: when the parent conversation exists in the store, `orm_add_message`
succeeds in a single commit, the created message carries
`created_time = now` (the time of the call), and in the resulting state the
parent conversation exists and every conversation row with the parent's id
has `updated_time = now` — both changes are part of the one state
transition, i.e. the same transaction. -/
theorem orm_add_message_spec (db : DB) (conversation : Conversation)
    (role msg message_type : String) (message_metadata : Option String)
    (provider model preset : String) (now : Nat) (c₀ : Conversation)
    (hc : orm_get_conversation db conversation.id = some c₀) :
    ∃ db' message,
      orm_add_message db conversation role msg message_type message_metadata
          provider model preset now = .ok (db', message) ∧
        message.created_time = now ∧
        (∃ c ∈ db'.conversations, c.id = conversation.id) ∧
        (∀ c ∈ db'.conversations, c.id = conversation.id → c.updated_time = now) := by
  have hc' : db.conversations.find? (fun c => c.id == conversation.id) = some c₀ := hc
  unfold orm_add_message
  rw [hc]
  refine ⟨_, _, rfl, rfl, ?_, ?_⟩
  · have hc₀mem := List.mem_of_find?_eq_some hc'
    have hc₀id : (c₀.id == conversation.id) = true := by
      have := List.find?_some hc'
      simpa using this
    refine ⟨{ c₀ with updated_time := now }, ?_, ?_⟩
    · have hfc : (fun c => if c.id == conversation.id
          then { c with updated_time := now } else c) c₀ =
          { c₀ with updated_time := now } := by
        simp [hc₀id]
      rw [← hfc]
      exact List.mem_map_of_mem _ hc₀mem
    · simpa using eq_of_beq hc₀id
  · intro c hcmem hcid
    rw [List.mem_map] at hcmem
    obtain ⟨x, hx, hfx⟩ := hcmem
    subst hfx
    by_cases hxid : (x.id == conversation.id) = true
    · simp [hxid]
    · rw [beq_iff_eq] at hxid
      simp only [beq_iff_eq, if_neg hxid] at hcid
      exact absurd hcid hxid

/-- C3 witness: adding a message to conversation 1 of the sample store at
time 21 creates the message with `created_time = 21` and stamps the parent
conversation with `updated_time = 21` in the same commit. -/
theorem orm_add_message_spec_witness :
    orm_get_conversation dbMain convA.id = some convA ∧
      ∃ db' message,
        orm_add_message dbMain convA "user" "q" "content" none "p1" "m1" "" 21 =
            .ok (db', message) ∧
          message.created_time = 21 ∧
          (∃ c ∈ db'.conversations, c.id = convA.id) ∧
          (∀ c ∈ db'.conversations, c.id = convA.id → c.updated_time = 21) :=
  ⟨by decide,
   orm_add_message_spec dbMain convA "user" "q" "content" none "p1" "m1" "" 21
     convA (by decide)⟩

/-- C4: deleting a user removes that user, every conversation referencing it
and every message of those conversations (the storage-level cascade), and
each of the three delete operations preserves referential integrity: after
the delete, every remaining conversation references an existing user and
every remaining message references an existing conversation. -/
theorem orm_delete_user_cascade_spec (db : DB) (user : User)
    (conversation : Conversation) (message : Message) (h : refIntegrity db) :
    (∀ u ∈ (orm_delete_user db user).1.users, u.id ≠ user.id) ∧
      (∀ c ∈ (orm_delete_user db user).1.conversations, c.user_id ≠ user.id) ∧
      (∀ m ∈ (orm_delete_user db user).1.messages,
        ∀ c ∈ db.conversations, c.user_id = user.id → m.conversation_id ≠ c.id) ∧
      refIntegrity (orm_delete_user db user).1 ∧
      refIntegrity (orm_delete_conversation db conversation).1 ∧
      refIntegrity (orm_delete_message db message).1 := by
  simp only [refIntegrity] at h ⊢
  obtain ⟨hcu, hmc⟩ := h
  simp only [orm_delete_user, orm_delete_conversation, orm_delete_message]
  refine ⟨?_, ?_, ?_, ⟨?_, ?_⟩, ⟨?_, ?_⟩, ⟨?_, ?_⟩⟩
  · intro u hu
    rw [List.mem_filter] at hu
    simpa using hu.2
  · intro c hc
    rw [List.mem_filter] at hc
    simpa using hc.2
  · intro m hm c hc hcuser hmceq
    rw [List.mem_filter] at hm
    have hany := hm.2
    rw [Bool.not_eq_true'] at hany
    have hcmem : c ∈ db.conversations.filter (fun c' => c'.user_id == user.id) := by
      rw [List.mem_filter]
      exact ⟨hc, by simp [hcuser]⟩
    have htrue : (db.conversations.filter (fun c' => c'.user_id == user.id)).any
        (fun c' => c'.id == m.conversation_id) = true := by
      rw [List.any_eq_true]
      exact ⟨c, hcmem, by simp [hmceq]⟩
    rw [hany] at htrue
    exact Bool.noConfusion htrue
  · intro c hc
    rw [List.mem_filter] at hc
    obtain ⟨u, hu, huid⟩ := hcu c hc.1
    refine ⟨u, ?_, huid⟩
    rw [List.mem_filter]
    refine ⟨hu, ?_⟩
    have hne : c.user_id ≠ user.id := by simpa using hc.2
    have hune : u.id ≠ user.id := by
      rw [huid]
      exact hne
    simpa using hune
  · intro m hm
    rw [List.mem_filter] at hm
    obtain ⟨c, hc, hcid⟩ := hmc m hm.1
    have hany := hm.2
    rw [Bool.not_eq_true'] at hany
    have hcnotuser : c.user_id ≠ user.id := by
      intro heq
      have hcmem : c ∈ db.conversations.filter (fun c' => c'.user_id == user.id) := by
        rw [List.mem_filter]
        exact ⟨hc, by simp [heq]⟩
      have htrue : (db.conversations.filter (fun c' => c'.user_id == user.id)).any
          (fun c' => c'.id == m.conversation_id) = true := by
        rw [List.any_eq_true]
        exact ⟨c, hcmem, by simp [hcid]⟩
      rw [hany] at htrue
      exact Bool.noConfusion htrue
    refine ⟨c, ?_, hcid⟩
    rw [List.mem_filter]
    exact ⟨hc, by simpa using hcnotuser⟩
  · intro c hc
    rw [List.mem_filter] at hc
    exact hcu c hc.1
  · intro m hm
    rw [List.mem_filter] at hm
    obtain ⟨c, hc, hcid⟩ := hmc m hm.1
    refine ⟨c, ?_, hcid⟩
    rw [List.mem_filter]
    refine ⟨hc, ?_⟩
    have hne : m.conversation_id ≠ conversation.id := by simpa using hm.2
    have hcne : c.id ≠ conversation.id := by
      rw [hcid]
      exact hne
    simpa using hcne
  · intro c hc
    exact hcu c hc
  · intro m hm
    rw [List.mem_filter] at hm
    exact hmc m hm.1

/-- C4 witness: the sample store satisfies referential integrity, and the
cascade/integrity specification holds there for deleting user 2,
conversation 1 or message 1. -/
theorem orm_delete_user_cascade_spec_witness :
    refIntegrity dbMain ∧
      ((∀ u ∈ (orm_delete_user dbMain bob).1.users, u.id ≠ bob.id) ∧
        (∀ c ∈ (orm_delete_user dbMain bob).1.conversations, c.user_id ≠ bob.id) ∧
        (∀ m ∈ (orm_delete_user dbMain bob).1.messages,
          ∀ c ∈ dbMain.conversations, c.user_id = bob.id → m.conversation_id ≠ c.id) ∧
        refIntegrity (orm_delete_user dbMain bob).1 ∧
        refIntegrity (orm_delete_conversation dbMain convA).1 ∧
        refIntegrity (orm_delete_message dbMain msgA).1) :=
  ⟨by decide, orm_delete_user_cascade_spec dbMain bob convA msgA (by decide)⟩

/-- C5: when the autoincrement counter is fresh and the new username and
email do not collide with stored rows, `orm_add_user` succeeds and fetching
the new id returns a user whose username, password, email, default_preset
and preferences equal the supplied values. -/
theorem orm_add_user_roundtrip (db : DB) (username : String)
    (password email : Option String) (default_preset : String)
    (p : List (String × String)) (now : Nat)
    (hid : ∀ u ∈ db.users, u.id ≠ db.nextUserId)
    (hname : ∀ u ∈ db.users, u.username ≠ username)
    (hemail : ∀ u ∈ db.users, u.email ≠ email ∨ email = none) :
    ∃ db' user,
      orm_add_user db username password email default_preset (some p) now =
          .ok (db', user) ∧
        orm_get_user db' user.id = some user ∧
        user.username = username ∧ user.password = password ∧
        user.email = email ∧ user.default_preset = default_preset ∧
        user.preferences = p := by
  have hok : user_row_ok db.users
      { id := db.nextUserId, username, password, email, default_preset,
        created_time := now, last_login_time := some now,
        preferences := (some p).getD [] } = true := by
    unfold user_row_ok
    rw [Bool.and_eq_true]
    constructor
    · rw [List.all_eq_true]
      intro u hu
      simpa using hname u hu
    · cases hem : email with
      | none => rfl
      | some e =>
        rw [List.all_eq_true]
        intro u hu
        rcases hemail u hu with hne | hnone
        · rw [hem] at hne
          simpa using hne
        · rw [hem] at hnone
          exact Option.noConfusion hnone
  unfold orm_add_user
  rw [if_pos hok]
  refine ⟨_, _, rfl, ?_, rfl, rfl, rfl, rfl, rfl⟩
  unfold orm_get_user
  rw [List.find?_append]
  have h1 : db.users.find? (fun u => u.id == db.nextUserId) = none := by
    rw [List.find?_eq_none]
    intro u hu
    simpa using hid u hu
  rw [h1]
  simp

/-- C5 witness: adding user "carol" to the sample store and fetching her id
returns the supplied field values. -/
theorem orm_add_user_roundtrip_witness :
    (∀ u ∈ dbMain.users, u.id ≠ dbMain.nextUserId) ∧
      (∀ u ∈ dbMain.users, u.username ≠ "carol") ∧
      (∀ u ∈ dbMain.users, u.email ≠ some "carol@example.com" ∨
        (some "carol@example.com" : Option String) = none) ∧
      ∃ db' user,
        orm_add_user dbMain "carol" (some "pw3") (some "carol@example.com")
            "chat" (some [("lang", "en")]) 30 = .ok (db', user) ∧
          orm_get_user db' user.id = some user ∧
          user.username = "carol" ∧ user.password = some "pw3" ∧
          user.email = some "carol@example.com" ∧ user.default_preset = "chat" ∧
          user.preferences = [("lang", "en")] :=
  ⟨by decide, by decide, by decide,
   orm_add_user_roundtrip dbMain "carol" (some "pw3") (some "carol@example.com")
     "chat" [("lang", "en")] 30 (by decide) (by decide) (by decide)⟩

/-- C6 counterexample: `orm_delete_conversation` (orm.py lines 239–242) has
no `return` statement, so it returns `None` rather than the deleted
conversation — the claim that every write operation returns the mutated
entity is false at this concrete input. -/
theorem orm_delete_conversation_returns_none :
    (orm_delete_conversation dbMain convA).2 = none ∧
      (orm_delete_conversation dbMain convA).2 ≠ some convA :=
  ⟨rfl, by decide⟩

/-- C6 amended: every write operation performs its single commit before
returning, so its effect is visible in the database state it returns; the
add and edit operations and `orm_delete_user` return the mutated entity,
while `orm_delete_conversation` and `orm_delete_message` return `None`. -/
theorem write_ops_commit_and_return :
    (∀ db username password email default_preset preferences now db' u,
      orm_add_user db username password email default_preset preferences now =
          .ok (db', u) →
        u ∈ db'.users) ∧
    (∀ db user title hidden now db' c,
      orm_add_conversation db user title hidden now = .ok (db', c) →
        c ∈ db'.conversations) ∧
    (∀ db conversation role msg message_type message_metadata provider model
        preset now db' m,
      orm_add_message db conversation role msg message_type message_metadata
          provider model preset now = .ok (db', m) →
        m ∈ db'.messages) ∧
    (∀ db user kwargs db' u', orm_edit_user db user kwargs = .ok (db', u') →
      user ∈ db.users → u' ∈ db'.users) ∧
    (∀ db conversation kwargs db' c',
      orm_edit_conversation db conversation kwargs = .ok (db', c') →
        conversation ∈ db.conversations → c' ∈ db'.conversations) ∧
    (∀ db message kwargs db' m',
      orm_edit_message db message kwargs = .ok (db', m') →
        message ∈ db.messages → m' ∈ db'.messages) ∧
    (∀ db user, (orm_delete_user db user).2 = user ∧
      ∀ u ∈ (orm_delete_user db user).1.users, u.id ≠ user.id) ∧
    (∀ db conversation, (orm_delete_conversation db conversation).2 = none ∧
      ∀ c ∈ (orm_delete_conversation db conversation).1.conversations,
        c.id ≠ conversation.id) ∧
    (∀ db message, (orm_delete_message db message).2 = none ∧
      ∀ m ∈ (orm_delete_message db message).1.messages, m.id ≠ message.id) := by
  refine ⟨?_, ?_, ?_, ?_, ?_, ?_, ?_, ?_, ?_⟩
  · intro db username password email default_preset preferences now db' u hok
    simp only [orm_add_user] at hok
    split at hok
    · simp only [Except.ok.injEq, Prod.mk.injEq] at hok
      obtain ⟨hdb, hu⟩ := hok
      subst hdb
      subst hu
      simp
    · exact Except.noConfusion hok
  · intro db user title hidden now db' c hok
    simp only [orm_add_conversation] at hok
    split at hok
    · simp only [Except.ok.injEq, Prod.mk.injEq] at hok
      obtain ⟨hdb, hc⟩ := hok
      subst hdb
      subst hc
      simp
    · exact Except.noConfusion hok
  · intro db conversation role msg message_type message_metadata provider model
      preset now db' m hok
    simp only [orm_add_message] at hok
    cases hcc : orm_get_conversation db conversation.id with
    | none =>
      rw [hcc] at hok
      exact Except.noConfusion hok
    | some c₀ =>
      rw [hcc] at hok
      simp only [Except.ok.injEq, Prod.mk.injEq] at hok
      obtain ⟨hdb, hm⟩ := hok
      subst hdb
      subst hm
      simp
  · intro db user kwargs db' u' hok hmem
    simp only [orm_edit_user] at hok
    split at hok
    · simp only [Except.ok.injEq, Prod.mk.injEq] at hok
      obtain ⟨hdb, hu⟩ := hok
      subst hdb
      subst hu
      have hmap := List.mem_map_of_mem
        (fun v => if v.id == user.id then kwargs.foldl setUserAttr user else v) hmem
      simpa using hmap
    · exact Except.noConfusion hok
  · intro db conversation kwargs db' c' hok hmem
    simp only [orm_edit_conversation] at hok
    split at hok
    · simp only [Except.ok.injEq, Prod.mk.injEq] at hok
      obtain ⟨hdb, hc⟩ := hok
      subst hdb
      subst hc
      have hmap := List.mem_map_of_mem
        (fun c => if c.id == conversation.id
          then kwargs.foldl setConversationAttr conversation else c) hmem
      simpa using hmap
    · exact Except.noConfusion hok
  · intro db message kwargs db' m' hok hmem
    simp only [orm_edit_message] at hok
    split at hok
    · simp only [Except.ok.injEq, Prod.mk.injEq] at hok
      obtain ⟨hdb, hm⟩ := hok
      subst hdb
      subst hm
      have hmap := List.mem_map_of_mem
        (fun m => if m.id == message.id then kwargs.foldl setMessageAttr message else m)
        hmem
      simpa using hmap
    · exact Except.noConfusion hok
  · intro db user
    simp only [orm_delete_user]
    refine ⟨trivial, ?_⟩
    intro u hu
    rw [List.mem_filter] at hu
    simpa using hu.2
  · intro db conversation
    simp only [orm_delete_conversation]
    refine ⟨trivial, ?_⟩
    intro c hc
    rw [List.mem_filter] at hc
    simpa using hc.2
  · intro db message
    simp only [orm_delete_message]
    refine ⟨trivial, ?_⟩
    intro m hm
    rw [List.mem_filter] at hm
    simpa using hm.2

/-- C6 witness: on the sample store, each write operation's effect is
visible in the returned state, the add/edit operations and
`orm_delete_user` return the mutated entity, and the other two deletes
return `None`. -/
theorem write_ops_commit_and_return_witness :
    userCarol ∈ dbAddU.users ∧
      convC10 ∈ dbC10.conversations ∧
      msgNew ∈ dbAddM.messages ∧
      aliceEdited ∈ dbEditU.users ∧
      convARenamed ∈ dbEditC.conversations ∧
      msgASystem ∈ dbEditM.messages ∧
      ((orm_delete_user dbMain bob).2 = bob ∧
        ∀ u ∈ (orm_delete_user dbMain bob).1.users, u.id ≠ bob.id) ∧
      ((orm_delete_conversation dbMain convB).2 = none ∧
        ∀ c ∈ (orm_delete_conversation dbMain convB).1.conversations,
          c.id ≠ convB.id) ∧
      ((orm_delete_message dbMain msgC).2 = none ∧
        ∀ m ∈ (orm_delete_message dbMain msgC).1.messages, m.id ≠ msgC.id) :=
  ⟨write_ops_commit_and_return.1 dbMain "carol" (some "pw3")
      (some "carol@example.com") "chat" (some [("lang", "en")]) 30 dbAddU
      userCarol (by rfl),
   write_ops_commit_and_return.2.1 dbMain alice none false 20 dbC10 convC10
     (by rfl),
   write_ops_commit_and_return.2.2.1 dbMain convA "user" "q" "content" none
     "p1" "m1" "" 21 dbAddM msgNew (by rfl),
   write_ops_commit_and_return.2.2.2.1 dbMain alice
     [UserUpdate.default_preset "new"] dbEditU aliceEdited (by rfl) (by decide),
   write_ops_commit_and_return.2.2.2.2.1 dbMain convA
     [ConversationUpdate.title (some "renamed")] dbEditC convARenamed (by rfl)
     (by decide),
   write_ops_commit_and_return.2.2.2.2.2.1 dbMain msgA
     [MessageUpdate.role "system"] dbEditM msgASystem (by rfl) (by decide),
   write_ops_commit_and_return.2.2.2.2.2.2.1 dbMain bob,
   write_ops_commit_and_return.2.2.2.2.2.2.2.1 dbMain convB,
   write_ops_commit_and_return.2.2.2.2.2.2.2.2 dbMain msgC⟩

theorem foldl_unchanged {α β κ : Type _} (set : α → β → α) (key : β → κ)
    (unched : α → α → κ → Prop)
    (hrefl : ∀ a f, unched a a f)
    (htrans : ∀ a b c f, unched a b f → unched b c f → unched a c f)
    (hstep : ∀ a b f, key b ≠ f → unched a (set a b) f) :
    ∀ (l : List β) (a : α) (f : κ), (∀ b ∈ l, key b ≠ f) →
      unched a (l.foldl set a) f := by
  intro l
  induction l with
  | nil =>
    intro a f _
    exact hrefl a f
  | cons b t ih =>
    intro a f hb
    rw [List.foldl_cons]
    exact htrans _ _ _ f (hstep a b f (hb b (List.mem_cons_self b t)))
      (ih (set a b) f (fun b' hb' => hb b' (List.mem_cons_of_mem b hb')))

theorem foldl_applied_of_applied {α β κ : Type _} (set : α → β → α) (key : β → κ)
    (applied : α → β → Prop)
    (hpres : ∀ a b b', applied a b → key b' ≠ key b → applied (set a b') b) :
    ∀ (l : List β) (a : α) (b : β), applied a b → (∀ b' ∈ l, key b' ≠ key b) →
      applied (l.foldl set a) b := by
  intro l
  induction l with
  | nil =>
    intro a b hab _
    exact hab
  | cons c t ih =>
    intro a b hab hk
    rw [List.foldl_cons]
    exact ih (set a c) b (hpres a b c hab (hk c (List.mem_cons_self c t)))
      (fun b' hb' => hk b' (List.mem_cons_of_mem c hb'))

theorem foldl_applied_of_nodup {α β κ : Type _} (set : α → β → α) (key : β → κ)
    (applied : α → β → Prop)
    (hset : ∀ a b, applied (set a b) b)
    (hpres : ∀ a b b', applied a b → key b' ≠ key b → applied (set a b') b) :
    ∀ (l : List β) (a : α), (l.map key).Nodup → ∀ b ∈ l, applied (l.foldl set a) b := by
  intro l
  induction l with
  | nil =>
    intro a _ b hb
    exact absurd hb (List.not_mem_nil b)
  | cons c t ih =>
    intro a hnd b hb
    rw [List.map_cons, List.nodup_cons] at hnd
    rw [List.foldl_cons]
    rcases List.mem_cons.mp hb with hbc | hbt
    · subst hbc
      refine foldl_applied_of_applied set key applied hpres t (set a b) b
        (hset a b) ?_
      intro b' hb' heq
      exact hnd.1 (heq ▸ List.mem_map_of_mem key hb')
    · exact ih (set a c) hnd.2 b hbt

theorem userFieldUnchanged_refl (u : User) (f : UserField) :
    userFieldUnchanged u u f := by
  cases f <;> rfl

theorem userFieldUnchanged_trans (a b c : User) (f : UserField)
    (h1 : userFieldUnchanged a b f) (h2 : userFieldUnchanged b c f) :
    userFieldUnchanged a c f := by
  cases f <;> simp_all [userFieldUnchanged]

theorem setUserAttr_unchanged (u : User) (b : UserUpdate) (f : UserField)
    (h : b.key ≠ f) : userFieldUnchanged u (setUserAttr u b) f := by
  cases b <;> cases f <;>
    simp_all [UserUpdate.key, setUserAttr, userFieldUnchanged]

theorem appliedUserUpdate_set (u : User) (b : UserUpdate) :
    appliedUserUpdate (setUserAttr u b) b := by
  cases b <;> rfl

theorem appliedUserUpdate_preserve (u : User) (b b' : UserUpdate)
    (h : appliedUserUpdate u b) (hk : b'.key ≠ b.key) :
    appliedUserUpdate (setUserAttr u b') b := by
  cases b <;> cases b' <;>
    simp_all [UserUpdate.key, setUserAttr, appliedUserUpdate]

theorem setUserAttr_id (u : User) (b : UserUpdate) : (setUserAttr u b).id = u.id := by
  cases b <;> rfl

theorem foldl_setUserAttr_id (l : List UserUpdate) (u : User) :
    (l.foldl setUserAttr u).id = u.id := by
  induction l generalizing u with
  | nil => rfl
  | cons b t ih => rw [List.foldl_cons, ih, setUserAttr_id]

theorem edit_user_frame (db : DB) (user : User) (kwargs : List UserUpdate)
    (db' : DB) (u' : User)
    (hnd : (kwargs.map UserUpdate.key).Nodup)
    (hmem : user ∈ db.users)
    (hok : orm_edit_user db user kwargs = .ok (db', u')) :
    (∀ upd ∈ kwargs, appliedUserUpdate u' upd) ∧
      (∀ f, f ∉ kwargs.map UserUpdate.key → userFieldUnchanged user u' f) ∧
      u'.id = user.id ∧ u' ∈ db'.users ∧
      (∀ v ∈ db.users, v.id ≠ user.id → v ∈ db'.users) := by
  simp only [orm_edit_user] at hok
  split at hok
  · simp only [Except.ok.injEq, Prod.mk.injEq] at hok
    obtain ⟨hdb, hu⟩ := hok
    subst hdb
    subst hu
    refine ⟨?_, ?_, ?_, ?_, ?_⟩
    · intro upd hupd
      exact foldl_applied_of_nodup setUserAttr UserUpdate.key appliedUserUpdate
        appliedUserUpdate_set appliedUserUpdate_preserve kwargs user hnd upd hupd
    · intro f hf
      exact foldl_unchanged setUserAttr UserUpdate.key userFieldUnchanged
        userFieldUnchanged_refl userFieldUnchanged_trans setUserAttr_unchanged
        kwargs user f
        (fun b hb hbf => hf (hbf ▸ List.mem_map_of_mem UserUpdate.key hb))
    · exact foldl_setUserAttr_id kwargs user
    · have hmap := List.mem_map_of_mem
        (fun v => if v.id == user.id then kwargs.foldl setUserAttr user else v) hmem
      simpa using hmap
    · intro v hv hne
      have hmap := List.mem_map_of_mem
        (fun w => if w.id == user.id then kwargs.foldl setUserAttr user else w) hv
      simp only [show (v.id == user.id) = false by simpa using hne] at hmap
      simpa using hmap
  · exact Except.noConfusion hok

theorem conversationFieldUnchanged_refl (c : Conversation) (f : ConversationField) :
    conversationFieldUnchanged c c f := by
  cases f <;> rfl

theorem conversationFieldUnchanged_trans (a b c : Conversation)
    (f : ConversationField) (h1 : conversationFieldUnchanged a b f)
    (h2 : conversationFieldUnchanged b c f) : conversationFieldUnchanged a c f := by
  cases f <;> simp_all [conversationFieldUnchanged]

theorem setConversationAttr_unchanged (c : Conversation) (b : ConversationUpdate)
    (f : ConversationField) (h : b.key ≠ f) :
    conversationFieldUnchanged c (setConversationAttr c b) f := by
  cases b <;> cases f <;>
    simp_all [ConversationUpdate.key, setConversationAttr, conversationFieldUnchanged]

theorem appliedConversationUpdate_set (c : Conversation) (b : ConversationUpdate) :
    appliedConversationUpdate (setConversationAttr c b) b := by
  cases b <;> rfl

theorem appliedConversationUpdate_preserve (c : Conversation)
    (b b' : ConversationUpdate) (h : appliedConversationUpdate c b)
    (hk : b'.key ≠ b.key) : appliedConversationUpdate (setConversationAttr c b') b := by
  cases b <;> cases b' <;>
    simp_all [ConversationUpdate.key, setConversationAttr, appliedConversationUpdate]

theorem setConversationAttr_id (c : Conversation) (b : ConversationUpdate) :
    (setConversationAttr c b).id = c.id := by
  cases b <;> rfl

theorem foldl_setConversationAttr_id (l : List ConversationUpdate)
    (c : Conversation) : (l.foldl setConversationAttr c).id = c.id := by
  induction l generalizing c with
  | nil => rfl
  | cons b t ih => rw [List.foldl_cons, ih, setConversationAttr_id]

theorem edit_conversation_frame (db : DB) (conversation : Conversation)
    (kwargs : List ConversationUpdate) (db' : DB) (c' : Conversation)
    (hnd : (kwargs.map ConversationUpdate.key).Nodup)
    (hmem : conversation ∈ db.conversations)
    (hok : orm_edit_conversation db conversation kwargs = .ok (db', c')) :
    (∀ upd ∈ kwargs, appliedConversationUpdate c' upd) ∧
      (∀ f, f ∉ kwargs.map ConversationUpdate.key →
        conversationFieldUnchanged conversation c' f) ∧
      c'.id = conversation.id ∧ c' ∈ db'.conversations ∧
      (∀ v ∈ db.conversations, v.id ≠ conversation.id → v ∈ db'.conversations) := by
  simp only [orm_edit_conversation] at hok
  split at hok
  · simp only [Except.ok.injEq, Prod.mk.injEq] at hok
    obtain ⟨hdb, hc⟩ := hok
    subst hdb
    subst hc
    refine ⟨?_, ?_, ?_, ?_, ?_⟩
    · intro upd hupd
      exact foldl_applied_of_nodup setConversationAttr ConversationUpdate.key
        appliedConversationUpdate appliedConversationUpdate_set
        appliedConversationUpdate_preserve kwargs conversation hnd upd hupd
    · intro f hf
      exact foldl_unchanged setConversationAttr ConversationUpdate.key
        conversationFieldUnchanged conversationFieldUnchanged_refl
        conversationFieldUnchanged_trans setConversationAttr_unchanged
        kwargs conversation f
        (fun b hb hbf => hf (hbf ▸ List.mem_map_of_mem ConversationUpdate.key hb))
    · exact foldl_setConversationAttr_id kwargs conversation
    · have hmap := List.mem_map_of_mem
        (fun c => if c.id == conversation.id
          then kwargs.foldl setConversationAttr conversation else c) hmem
      simpa using hmap
    · intro v hv hne
      have hmap := List.mem_map_of_mem
        (fun c => if c.id == conversation.id
          then kwargs.foldl setConversationAttr conversation else c) hv
      simp only [show (v.id == conversation.id) = false by simpa using hne] at hmap
      simpa using hmap
  · exact Except.noConfusion hok

theorem messageFieldUnchanged_refl (m : Message) (f : MessageField) :
    messageFieldUnchanged m m f := by
  cases f <;> rfl

theorem messageFieldUnchanged_trans (a b c : Message) (f : MessageField)
    (h1 : messageFieldUnchanged a b f) (h2 : messageFieldUnchanged b c f) :
    messageFieldUnchanged a c f := by
  cases f <;> simp_all [messageFieldUnchanged]

theorem setMessageAttr_unchanged (m : Message) (b : MessageUpdate)
    (f : MessageField) (h : b.key ≠ f) :
    messageFieldUnchanged m (setMessageAttr m b) f := by
  cases b <;> cases f <;>
    simp_all [MessageUpdate.key, setMessageAttr, messageFieldUnchanged]

theorem appliedMessageUpdate_set (m : Message) (b : MessageUpdate) :
    appliedMessageUpdate (setMessageAttr m b) b := by
  cases b <;> rfl

theorem appliedMessageUpdate_preserve (m : Message) (b b' : MessageUpdate)
    (h : appliedMessageUpdate m b) (hk : b'.key ≠ b.key) :
    appliedMessageUpdate (setMessageAttr m b') b := by
  cases b <;> cases b' <;>
    simp_all [MessageUpdate.key, setMessageAttr, appliedMessageUpdate]

theorem setMessageAttr_id (m : Message) (b : MessageUpdate) :
    (setMessageAttr m b).id = m.id := by
  cases b <;> rfl

theorem foldl_setMessageAttr_id (l : List MessageUpdate) (m : Message) :
    (l.foldl setMessageAttr m).id = m.id := by
  induction l generalizing m with
  | nil => rfl
  | cons b t ih => rw [List.foldl_cons, ih, setMessageAttr_id]

theorem edit_message_frame (db : DB) (message : Message)
    (kwargs : List MessageUpdate) (db' : DB) (m' : Message)
    (hnd : (kwargs.map MessageUpdate.key).Nodup)
    (hmem : message ∈ db.messages)
    (hok : orm_edit_message db message kwargs = .ok (db', m')) :
    (∀ upd ∈ kwargs, appliedMessageUpdate m' upd) ∧
      (∀ f, f ∉ kwargs.map MessageUpdate.key →
        messageFieldUnchanged message m' f) ∧
      m'.id = message.id ∧ m' ∈ db'.messages ∧
      (∀ v ∈ db.messages, v.id ≠ message.id → v ∈ db'.messages) := by
  simp only [orm_edit_message] at hok
  split at hok
  · simp only [Except.ok.injEq, Prod.mk.injEq] at hok
    obtain ⟨hdb, hm⟩ := hok
    subst hdb
    subst hm
    refine ⟨?_, ?_, ?_, ?_, ?_⟩
    · intro upd hupd
      exact foldl_applied_of_nodup setMessageAttr MessageUpdate.key
        appliedMessageUpdate appliedMessageUpdate_set
        appliedMessageUpdate_preserve kwargs message hnd upd hupd
    · intro f hf
      exact foldl_unchanged setMessageAttr MessageUpdate.key
        messageFieldUnchanged messageFieldUnchanged_refl
        messageFieldUnchanged_trans setMessageAttr_unchanged kwargs message f
        (fun b hb hbf => hf (hbf ▸ List.mem_map_of_mem MessageUpdate.key hb))
    · exact foldl_setMessageAttr_id kwargs message
    · have hmap := List.mem_map_of_mem
        (fun m => if m.id == message.id
          then kwargs.foldl setMessageAttr message else m) hmem
      simpa using hmap
    · intro v hv hne
      have hmap := List.mem_map_of_mem
        (fun m => if m.id == message.id
          then kwargs.foldl setMessageAttr message else m) hv
      simp only [show (v.id == message.id) = false by simpa using hne] at hmap
      simpa using hmap
  · exact Except.noConfusion hok

/-- C7: for each of the three edit operations, given keyword arguments with
distinct column names (a Python dict has unique keys) and an entity present
in the store, a successful edit sets exactly the named columns to the given
values, leaves every other column and the primary key unchanged, persists
the updated row, and keeps every other row. -/
theorem orm_edit_sets_exactly_named_fields :
    (∀ db user kwargs db' u',
      ((kwargs : List UserUpdate).map UserUpdate.key).Nodup → user ∈ db.users →
        orm_edit_user db user kwargs = .ok (db', u') →
        (∀ upd ∈ kwargs, appliedUserUpdate u' upd) ∧
          (∀ f, f ∉ kwargs.map UserUpdate.key → userFieldUnchanged user u' f) ∧
          u'.id = user.id ∧ u' ∈ db'.users ∧
          (∀ v ∈ db.users, v.id ≠ user.id → v ∈ db'.users)) ∧
    (∀ db conversation kwargs db' c',
      ((kwargs : List ConversationUpdate).map ConversationUpdate.key).Nodup →
        conversation ∈ db.conversations →
        orm_edit_conversation db conversation kwargs = .ok (db', c') →
        (∀ upd ∈ kwargs, appliedConversationUpdate c' upd) ∧
          (∀ f, f ∉ kwargs.map ConversationUpdate.key →
            conversationFieldUnchanged conversation c' f) ∧
          c'.id = conversation.id ∧ c' ∈ db'.conversations ∧
          (∀ v ∈ db.conversations, v.id ≠ conversation.id →
            v ∈ db'.conversations)) ∧
    (∀ db message kwargs db' m',
      ((kwargs : List MessageUpdate).map MessageUpdate.key).Nodup →
        message ∈ db.messages →
        orm_edit_message db message kwargs = .ok (db', m') →
        (∀ upd ∈ kwargs, appliedMessageUpdate m' upd) ∧
          (∀ f, f ∉ kwargs.map MessageUpdate.key →
            messageFieldUnchanged message m' f) ∧
          m'.id = message.id ∧ m' ∈ db'.messages ∧
          (∀ v ∈ db.messages, v.id ≠ message.id → v ∈ db'.messages)) :=
  ⟨fun db user kwargs db' u' hnd hmem hok =>
      edit_user_frame db user kwargs db' u' hnd hmem hok,
   fun db conversation kwargs db' c' hnd hmem hok =>
      edit_conversation_frame db conversation kwargs db' c' hnd hmem hok,
   fun db message kwargs db' m' hnd hmem hok =>
      edit_message_frame db message kwargs db' m' hnd hmem hok⟩

/-- C7 witness: concrete single-field edits of user 1, conversation 1 and
message 1 of the sample store set the named column, leave the other columns
unchanged, and persist. -/
theorem orm_edit_sets_exactly_named_fields_witness :
    ((∀ upd ∈ [UserUpdate.default_preset "new"], appliedUserUpdate aliceEdited upd) ∧
      (∀ f, f ∉ [UserUpdate.default_preset "new"].map UserUpdate.key →
        userFieldUnchanged alice aliceEdited f) ∧
      aliceEdited.id = alice.id ∧ aliceEdited ∈ dbEditU.users ∧
      (∀ v ∈ dbMain.users, v.id ≠ alice.id → v ∈ dbEditU.users)) ∧
    ((∀ upd ∈ [ConversationUpdate.title (some "renamed")],
        appliedConversationUpdate convARenamed upd) ∧
      (∀ f, f ∉ [ConversationUpdate.title (some "renamed")].map
          ConversationUpdate.key →
        conversationFieldUnchanged convA convARenamed f) ∧
      convARenamed.id = convA.id ∧ convARenamed ∈ dbEditC.conversations ∧
      (∀ v ∈ dbMain.conversations, v.id ≠ convA.id → v ∈ dbEditC.conversations)) ∧
    ((∀ upd ∈ [MessageUpdate.role "system"], appliedMessageUpdate msgASystem upd) ∧
      (∀ f, f ∉ [MessageUpdate.role "system"].map MessageUpdate.key →
        messageFieldUnchanged msgA msgASystem f) ∧
      msgASystem.id = msgA.id ∧ msgASystem ∈ dbEditM.messages ∧
      (∀ v ∈ dbMain.messages, v.id ≠ msgA.id → v ∈ dbEditM.messages)) :=
  ⟨orm_edit_sets_exactly_named_fields.1 dbMain alice
      [UserUpdate.default_preset "new"] dbEditU aliceEdited (by decide)
      (by decide) (by rfl),
   orm_edit_sets_exactly_named_fields.2.1 dbMain convA
     [ConversationUpdate.title (some "renamed")] dbEditC convARenamed
     (by decide) (by decide) (by rfl),
   orm_edit_sets_exactly_named_fields.2.2 dbMain msgA
     [MessageUpdate.role "system"] dbEditM msgASystem (by decide) (by decide)
     (by rfl)⟩
